import Mathlib

/-!
Verification of the MIDI-to-LLM text converter core
(`llm_converter.py`, `utils.py`, `midi_parser.py`).

The Python source computes durations with IEEE doubles; the embedding
idealises that arithmetic as exact rationals (`ℚ`).  All table values and
inputs of interest are small dyadic rationals, where double and exact
arithmetic agree.

Because `ℚ` arithmetic does not reduce inside the Lean kernel, each
quantity the concrete test cases must *evaluate* also gets an
integer-exact twin (distances scaled by the positive factor
`16 * ticks_per_beat`, truncating division written with `Int.tdiv`),
together with a proved equivalence to the faithful `ℚ` definition.
The converter pipeline calls the integer twins; the equivalence theorems
(`durCode_eq`, `calc_ticks_per_measure_int_eq`) connect them to the
direct translations of the source.
-/

namespace MidiLLM

/-! ### Duration quantizer: `_ticks_to_duration_code` (llm_converter.py:43-95) -/

/-- The `duration_map` table of `_ticks_to_duration_code`:
`(beat value, duration code)` pairs, in source order. -/
def duration_map : List (ℚ × String) :=
  [(8.0, "/0.5"), (4.0, "/1"), (3.0, "/2."), (2.0, "/2"), (1.5, "/4."),
   (1.0, "/4"), (0.75, "/8."), (0.5, "/8"), (0.375, "/16."), (0.25, "/16"),
   (0.1875, "/32."), (0.125, "/32"), (0.0625, "/64")]

/-- One iteration of the minimum-distance scan in `_ticks_to_duration_code`:
the running state is `none` (Python: `min_difference = inf`,
`best_match_code = None`) or `some (min_difference, best_match_code)`;
an entry replaces the state iff its distance is strictly smaller. -/
def scanStep (beats : ℚ) (acc : Option (ℚ × String)) (e : ℚ × String) :
    Option (ℚ × String) :=
  let difference := |beats - e.1|
  match acc with
  | none => some (difference, e.2)
  | some (m, c) => if difference < m then some (difference, e.2) else some (m, c)

/-- The scan loop of `_ticks_to_duration_code`: fold `scanStep` over the
table, starting from the empty state. -/
def bestMatch (beats : ℚ) : Option (ℚ × String) :=
  duration_map.foldl (scanStep beats) none

/-- The scan result plus the `best_match_code is None` fallback of
`_ticks_to_duration_code` (the `max_allowed_error` check only logs a
warning in the source and does not change the returned value). -/
def quantCore (beats : ℚ) : String :=
  match bestMatch beats with
  | none => "/?"
  | some (_, code) => code

/-- `_ticks_to_duration_code(ticks, ticks_per_beat)`.  The unused
`time_signature_denominator` parameter is omitted.  Exact-rational
idealisation of the source's float arithmetic. -/
def ticks_to_duration_code (ticks ticks_per_beat : ℚ) : String :=
  if ticks ≤ 0 ∨ ticks_per_beat ≤ 0 then "/?"
  else quantCore (ticks / ticks_per_beat)

/-! #### Integer-exact twin of the quantizer -/

/-- `duration_map` with each beat value scaled by 16 (all table values are
multiples of 1/16). -/
def scaled_duration_map : List (ℤ × String) :=
  [(128, "/0.5"), (64, "/1"), (48, "/2."), (32, "/2"), (24, "/4."),
   (16, "/4"), (12, "/8."), (8, "/8"), (6, "/16."), (4, "/16"),
   (3, "/32."), (2, "/32"), (1, "/64")]

/-- `scanStep` with the distance `|ticks/tpb - bn/16|` represented by its
numerator over the fixed positive denominator `16 * tpb`. -/
def scanStepInt (t tpb : ℤ) (acc : Option (ℕ × String)) (e : ℤ × String) :
    Option (ℕ × String) :=
  let difference := (16 * t - e.1 * tpb).natAbs
  match acc with
  | none => some (difference, e.2)
  | some (m, c) => if difference < m then some (difference, e.2) else some (m, c)

/-- Integer-exact twin of `bestMatch`. -/
def bestMatchInt (t tpb : ℤ) : Option (ℕ × String) :=
  scaled_duration_map.foldl (scanStepInt t tpb) none

/-- Integer-exact twin of `ticks_to_duration_code`; proven equal in
`durCode_eq`. -/
def durCode (ticks ticks_per_beat : ℤ) : String :=
  if ticks ≤ 0 ∨ ticks_per_beat ≤ 0 then "/?"
  else
    match bestMatchInt ticks ticks_per_beat with
    | none => "/?"
    | some (_, code) => code


/-- Modelled from claim C6's wording: `code_to_ticks` maps a duration code
back to its `duration_map` beat value times `ticks_per_beat` (not a source
function; the source has no inverse mapping). -/
def code_to_ticks (code : String) (ticks_per_beat : ℚ) : ℚ :=
  (match code with
   | "/0.5" => 8
   | "/1" => 4
   | "/2." => 3
   | "/2" => 2
   | "/4." => 3 / 2
   | "/4" => 1
   | "/8." => 3 / 4
   | "/8" => 1 / 2
   | "/16." => 3 / 8
   | "/16" => 1 / 4
   | "/32." => 3 / 16
   | "/32" => 1 / 8
   | "/64" => 1 / 16
   | _ => 0) * ticks_per_beat

/-! ### utils.py -/

/-- `config.VELOCITY_THRESHOLDS`; the dict is declared in ascending value
order, so Python's `sorted(items, key=value)` in `velocity_to_dynamic`
returns exactly this list. -/
def VELOCITY_THRESHOLDS : List (String × ℤ) :=
  [("ppp", 16), ("pp", 32), ("p", 63), ("mp", 79),
   ("mf", 95), ("f", 111), ("ff", 126), ("fff", 127)]

/-- `utils.velocity_to_dynamic` (utils.py:37-51). -/
def velocity_to_dynamic (velocity : ℤ) : String :=
  if ¬ (0 ≤ velocity ∧ velocity ≤ 127) then "mf"
  else
    match VELOCITY_THRESHOLDS.find? (fun p => decide (velocity ≤ p.2)) with
    | some p => p.1
    | none => "mf"

/-- `utils.MIDI_NOTE_NAMES` (the twelve pitch-class names, written here in
four chunks). -/
def MIDI_NOTE_NAMES : List String :=
  ["C", "C#", "D"] ++ ["D#", "E", "F"] ++ ["F#", "G", "G#"] ++ ["A", "A#", "B"]

/-- `utils.midi_note_to_llm_pitch` (utils.py:75-86); `/` and `%` on `ℤ`
are floor division and nonnegative remainder, matching Python. -/
def midi_note_to_llm_pitch (note_number : ℤ) : String :=
  if ¬ (0 ≤ note_number ∧ note_number ≤ 127) then toString note_number
  else
    let octave := note_number / 12 - 1
    let note_name := MIDI_NOTE_NAMES.getD (note_number % 12).toNat ""
    note_name ++ toString octave

/-- Python `int()` on a rational value: truncation toward zero. -/
def pyInt (q : ℚ) : ℤ := if q < 0 then -⌊-q⌋ else ⌊q⌋

/-- `utils.calculate_ticks_per_measure` (utils.py:88-114).  A malformed
`time_signature` argument (not a 2-tuple) is modelled as `none` and
replaced by `(4, 4)` as in the source; the `ZeroDivisionError` handler is
unreachable because the `denominator == 0` test returns first. -/
def calculate_ticks_per_measure (time_signature : Option (ℤ × ℤ))
    (ticks_per_beat : ℤ) : ℤ :=
  let ts := time_signature.getD (4, 4)
  let numerator := ts.1
  let denominator := ts.2
  if denominator = 0 then ticks_per_beat * 4
  else
    let tpb := if ticks_per_beat ≤ 0 then 1 else ticks_per_beat
    let ticks := pyInt ((tpb : ℚ) * (numerator : ℚ) * (4 / (denominator : ℚ)))
    if ticks ≤ 0 then tpb * 4 else ticks

/-- Integer-exact twin of `calculate_ticks_per_measure` (truncating
division `Int.tdiv`); proven equal in `calc_ticks_per_measure_int_eq`. -/
def calcTicksPerMeasureInt (time_signature : Option (ℤ × ℤ))
    (ticks_per_beat : ℤ) : ℤ :=
  let ts := time_signature.getD (4, 4)
  let numerator := ts.1
  let denominator := ts.2
  if denominator = 0 then ticks_per_beat * 4
  else
    let tpb := if ticks_per_beat ≤ 0 then 1 else ticks_per_beat
    let ticks := Int.tdiv (tpb * numerator * 4) denominator
    if ticks ≤ 0 then tpb * 4 else ticks

/-! ### Event and object model (midi_parser.py / llm_converter.py) -/

/-- One entry of a `tracks_data` track list
(midi_parser.parse_midi_file). -/
inductive Event where
  | note (tick pitch velocity duration : ℕ)
  | timesig (tick numerator denominator : ℕ)
  | tempo (tick : ℕ) (bpm : ℚ)
deriving DecidableEq

def Event.tick : Event → ℕ
  | .note t _ _ _ => t
  | .timesig t _ _ => t
  | .tempo t _ => t

def Event.isTempo : Event → Bool
  | .tempo _ _ => true
  | _ => false

/-- One entry of `musical_objects` (pass 1 of `midi_to_llm_text`). -/
inductive MObj where
  | note (tick pitch_num : ℕ) (pitch_str : String) (duration_ticks : ℕ)
  | rest (tick : ℕ) (code : String) (duration_ticks : ℕ)
  | dyn (tick : ℕ) (code : String)
  | timesig (tick : ℕ) (code : String)
deriving DecidableEq

def MObj.tick : MObj → ℕ
  | .note t _ _ _ => t
  | .rest t _ _ => t
  | .dyn t _ => t
  | .timesig t _ => t

def MObj.isNote : MObj → Bool
  | .note _ _ _ _ => true
  | _ => false

def MObj.pitchNum : MObj → ℕ
  | .note _ p _ _ => p
  | _ => 0

def MObj.pitchStr : MObj → String
  | .note _ _ s _ => s
  | _ => ""

def MObj.durTicks : MObj → ℕ
  | .note _ _ _ d => d
  | .rest _ _ d => d
  | _ => 0

/-- `config.MIN_REST_DURATION_TICKS`. -/
def MIN_REST_DURATION_TICKS : ℕ := 5

/-! ### Pass 1: musical objects (llm_converter.py:139-191) -/

/-- Pass-1 state: accumulated objects, `last_event_end_tick`,
`current_dynamic`. -/
structure P1 where
  objs : List MObj
  lastEnd : ℕ
  curDyn : Option String
deriving DecidableEq

/-- One iteration of the pass-1 event loop.  The rest-insertion check runs
for every event kind before the type dispatch.  `e.tick - st.lastEnd` in ℕ
truncates a negative Python gap to 0; both fail the `≥ 5` test, and the
stored rest duration is only used when the test passes, where they agree. -/
def pass1Step (tpb : ℕ) (st : P1) (e : Event) : P1 :=
  let rest_duration := e.tick - st.lastEnd
  let st1 :=
    if MIN_REST_DURATION_TICKS ≤ rest_duration then
      { st with objs := st.objs ++
          [MObj.rest st.lastEnd ("R" ++ durCode (rest_duration : ℤ) (tpb : ℤ))
            rest_duration] }
    else st
  match e with
  | .note tick pitch velocity duration =>
      let dynamic_symbol := velocity_to_dynamic (velocity : ℤ)
      let st2 :=
        if some dynamic_symbol ≠ st1.curDyn then
          { st1 with
              objs := st1.objs ++ [MObj.dyn tick ("dyn(" ++ dynamic_symbol ++ ")")],
              curDyn := some dynamic_symbol }
        else st1
      { st2 with
          objs := st2.objs ++
            [MObj.note tick pitch (midi_note_to_llm_pitch (pitch : ℤ)) duration],
          lastEnd := tick + duration }
  | .timesig tick numerator denominator =>
      { st1 with objs := st1.objs ++
          [MObj.timesig tick
            ("[" ++ toString numerator ++ "/" ++ toString denominator ++ "]")] }
  | .tempo _ _ => st1

/-- Pass 1 over a whole track. -/
def pass1 (tpb : ℕ) (events : List Event) : P1 :=
  events.foldl (pass1Step tpb) ⟨[], 0, none⟩

/-- `musical_objects.sort(key=tick)` — a stable sort by tick
(`insertionSort` is stable, like Python's Timsort). -/
def sortObjs (objs : List MObj) : List MObj :=
  objs.insertionSort (fun a b => a.tick ≤ b.tick)

/-- `true` iff no tempo event triggers the rest-insertion check when pass 1
runs from state `st`. -/
def tempoSafeB (tpb : ℕ) (st : P1) : List Event → Bool
  | [] => true
  | e :: rest =>
    (match e with
     | .tempo t _ => decide (t - st.lastEnd < MIN_REST_DURATION_TICKS)
     | _ => true) && tempoSafeB tpb (pass1Step tpb st e) rest

/-! ### Pass 2: formatting (llm_converter.py:193-314) -/

/-- `track_string_parts and track_string_parts[-1].startswith('|')`. -/
def lastStartsBar (parts : List String) : Bool :=
  match parts.getLast? with
  | none => false
  | some s => s.toList.head? == some '|'

/-- Body of the bar-line for-loop (llm_converter.py:220-226 and 289-294):
append a bar part, or attach the measure number to an existing one. -/
def barStep (parts : List String) (m : ℕ) : List String :=
  let bar_num_marker := if m % 5 = 0 then " " ++ toString m else ""
  if lastStartsBar parts = false then parts ++ ["|" ++ bar_num_marker]
  else if bar_num_marker ≠ "" then parts.dropLast ++ ["|" ++ bar_num_marker]
  else parts

/-- `for m in range(cm + 1, target + 1): ...` over `barStep`. -/
def insertBars (parts : List String) (cm target : ℕ) : List String :=
  (List.range' (cm + 1) (target - cm)).foldl barStep parts

/-- Pass-2 state: `track_string_parts` and `current_measure`
(`last_tick_in_measure` and `last_formatted_tick` are assigned but never
read in the source, and are omitted). -/
structure P2 where
  parts : List String
  cm : ℕ
deriving DecidableEq

/-- Maximal runs of consecutive same-tick note objects; every other object
is a singleton run.  This realises the chord lookahead
(`while j < len(objs) and objs[j].tick == tick and objs[j].type == 'note'`,
then `advance_index = j - i`). -/
def groupRuns : List MObj → List (List MObj)
  | [] => []
  | o :: rest =>
    match groupRuns rest with
    | [] => [[o]]
    | g :: gs =>
      match g with
      | [] => [o] :: g :: gs
      | h :: _ =>
        if o.isNote && h.isNote && (h.tick == o.tick) then (o :: g) :: gs
        else [o] :: g :: gs

/-- `chord_notes.sort(key=pitch_num)` — stable sort by MIDI number. -/
def sortChord (g : List MObj) : List MObj :=
  g.insertionSort (fun a b => a.pitchNum ≤ b.pitchNum)

/-- Python `'+'.join`. -/
def joinPlus : List String → String
  | [] => ""
  | [x] => x
  | x :: xs => x ++ "+" ++ joinPlus xs

/-- `max(n['duration_ticks'] for n in chord_notes)` (groups are nonempty,
so the 0 seed never matters). -/
def chordMaxDur (g : List MObj) : ℕ :=
  g.foldl (fun a n => max a n.durTicks) 0

/-- The note/chord token built at llm_converter.py:243-255. -/
def chordToken (tpb : ℕ) (g : List MObj) : String :=
  let pitches := (sortChord g).map MObj.pitchStr
  let duration_code := durCode ((chordMaxDur g : ℤ)) (tpb : ℤ)
  (if 1 < pitches.length then joinPlus pitches else pitches.headD "")
    ++ duration_code

/-- One iteration of the pass-2 while loop, applied to one run. -/
def pass2Group (tpb tpm : ℕ) (st : P2) (g : List MObj) : P2 :=
  match g with
  | [] => st
  | o :: _ =>
    let tick := o.tick
    let measure_at_tick := tick / tpm + 1
    let st1 :=
      if st.cm < measure_at_tick then
        { parts := insertBars st.parts st.cm measure_at_tick,
          cm := measure_at_tick }
      else st
    match o with
    | .note _ _ _ _ => { st1 with parts := st1.parts ++ [chordToken tpb g] }
    | .rest _ code _ =>
        if code = "R/1" ∧ tick % tpm = 0 then st1
        else { st1 with parts := st1.parts ++ [code] }
    | .dyn _ code => { st1 with parts := st1.parts ++ [code] }
    | .timesig _ code => { st1 with parts := st1.parts ++ [code] }

/-- Pass 2 over the (sorted) object list, starting from `["| 1"]`,
measure 1. -/
def pass2 (tpb tpm : ℕ) (objs : List MObj) : P2 :=
  (groupRuns objs).foldl (pass2Group tpb tpm) ⟨["| 1"], 1⟩

/-- Pass 2 plus the trailing-bar section (llm_converter.py:285-296):
the final parts list of a non-empty track. -/
def trackFinalParts (tpb tpm : ℕ) (objs : List MObj) (lastEnd : ℕ) :
    List String :=
  let st := pass2 tpb tpm objs
  let final_measure := lastEnd / tpm + 1
  if st.cm ≤ final_measure then
    let p := insertBars st.parts st.cm final_measure
    if lastStartsBar p then p else p ++ ["|"]
  else st.parts

/-! ### String cleanup (llm_converter.py:299-312) -/

/-- Python `str.replace` on character lists, with fuel (each step consumes
at least one character, so `fuel = length` suffices). -/
def replaceFuel (pat rep : List Char) : ℕ → List Char → List Char
  | _, [] => []
  | 0, l => l
  | fuel + 1, c :: rest =>
    if pat ≠ [] ∧ pat.isPrefixOf (c :: rest) then
      rep ++ replaceFuel pat rep fuel (List.drop (pat.length - 1) rest)
    else c :: replaceFuel pat rep fuel rest

/-- Python `s.replace(pat, rep)`: all non-overlapping occurrences, left to
right. -/
def pyReplace (s pat rep : String) : String :=
  (replaceFuel pat.toList rep.toList s.toList.length s.toList).asString

/-- Python `s.strip()` (the strings here contain no whitespace other than
spaces). -/
def pyStrip (s : String) : String :=
  (((s.toList.dropWhile (fun c => c == ' ')).reverse.dropWhile
      (fun c => c == ' ')).reverse).asString

/-- Python `' '.join`. -/
def joinSpace : List String → String
  | [] => ""
  | [x] => x
  | x :: xs => x ++ " " ++ joinSpace xs

/-- Helper of `pyWords`: split on runs of spaces, accumulating the current
word reversed. -/
def wordsGo (cur : List Char) : List Char → List (List Char)
  | [] => if cur = [] then [] else [cur.reverse]
  | c :: rest =>
      if c == ' ' then
        (if cur = [] then wordsGo [] rest else cur.reverse :: wordsGo [] rest)
      else wordsGo (c :: cur) rest

/-- Python `s.split()` (space-only strings). -/
def pyWords (s : String) : List String :=
  (wordsGo [] s.toList).map List.asString

/-- The body cleanup chain of `midi_to_llm_text` (llm_converter.py:301-312),
including the `"| 1 |"` fallback for a body that cleans to a single bar. -/
def cleanBody (parts : List String) : String :=
  let filtered_parts := parts.filter (fun p => p != "")
  let b0 := joinSpace filtered_parts
  let b1 := pyReplace (pyReplace b0 " | |" " |") "||" "|"
  let b2 := pyStrip (pyReplace b1 " |" "|")
  let b3 := pyStrip (pyReplace b2 "|" " | ")
  let b4 := joinSpace (pyWords b3)
  if b4 = "|" then "| 1 |" else b4

/-- One iteration of the per-track loop of `midi_to_llm_text`
(llm_converter.py:131-314); `none` models the `continue` that skips a track
whose event list is empty. -/
def convertTrack (track_index : ℕ) (track_name : String)
    (initial_time_signature : Option (ℤ × ℤ)) (ticks_per_beat : ℕ)
    (track_events : List Event) : Option String :=
  if track_events = [] then none
  else
    let track_header := "T" ++ toString track_index ++ " " ++ track_name ++ ":"
    let tpm := calcTicksPerMeasureInt initial_time_signature (ticks_per_beat : ℤ)
    if tpm ≤ 0 then
      some (track_header ++ "\nFEHLER: Konnte Taktlänge nicht berechnen.")
    else
      let st1 := pass1 ticks_per_beat track_events
      let objs := sortObjs st1.objs
      if objs = [] then some (track_header ++ "\n| 1 |")
      else
        let parts := trackFinalParts ticks_per_beat tpm.toNat objs st1.lastEnd
        some (track_header ++ "\n" ++ cleanBody parts)

/-- Python `"\n\n".join`. -/
def joinBlocks : List String → String
  | [] => ""
  | [x] => x
  | x :: xs => x ++ "\n\n" ++ joinBlocks xs

/-- `midi_to_llm_text`: the `Key:` header followed by the non-skipped track
blocks. -/
def midi_to_llm_text (key_signature : String)
    (initial_time_signature : Option (ℤ × ℤ)) (ticks_per_beat : ℕ)
    (tracks : List (String × List Event)) : String :=
  let blocks := tracks.enum.filterMap fun p =>
    convertTrack p.1 p.2.1 initial_time_signature ticks_per_beat p.2.2
  joinBlocks (("Key: " ++ key_signature) :: blocks)


/-! ### Concrete tracks used by the test-case theorems -/

/-- C1 scenario: C4 (vel 80, 480 ticks), E4 (vel 80, 480), G4 (vel 70, 960),
back to back. -/
def c1track : List Event :=
  [Event.note 0 60 80 480, Event.note 480 64 80 480, Event.note 960 67 70 960]

/-- C3 counterexample: a tempo event 480 ticks after the last note end. -/
def c3track : List Event :=
  [Event.note 0 60 80 480, Event.tempo 960 120, Event.note 1920 64 80 480]

/-- C3 witness: a tempo event only 1 tick after the last note end. -/
def c3safeTrack : List Event :=
  [Event.note 0 60 80 480, Event.tempo 481 120, Event.note 960 64 80 480]

/-- C4 counterexample: a time-signature marker far past the last note end. -/
def c4track : List Event :=
  [Event.note 0 60 80 480, Event.timesig 10000 3 4]

/-- C5 counterexample: simultaneous notes in different velocity buckets. -/
def c5track : List Event :=
  [Event.note 0 60 80 480, Event.note 0 67 20 480]

/-- C5 chord scenario: simultaneous notes, MIDI 67 inserted before 60. -/
def c5chordTrack : List Event :=
  [Event.note 0 67 80 480, Event.note 0 60 80 480]

lemma duration_map_eq_scaled :
    duration_map = scaled_duration_map.map (fun p => (((p.1 : ℚ)) / 16, p.2)) := by
  simp only [duration_map, scaled_duration_map, List.map]
  norm_num

lemma dist_scaled (t tpb bn : ℤ) (htpb : 0 < tpb) :
    |(t : ℚ) / (tpb : ℚ) - (bn : ℚ) / 16|
      = (((16 * t - bn * tpb).natAbs : ℚ)) / (16 * (tpb : ℚ)) := by
  have htq : (0 : ℚ) < (tpb : ℚ) := by exact_mod_cast htpb
  have hne : (tpb : ℚ) ≠ 0 := ne_of_gt htq
  have h16 : (0 : ℚ) < 16 * (tpb : ℚ) := by positivity
  have hval : (t : ℚ) / (tpb : ℚ) - (bn : ℚ) / 16
      = ((16 * t - bn * tpb : ℤ) : ℚ) / (16 * (tpb : ℚ)) := by
    push_cast
    field_simp
    ring
  rw [hval, abs_div, abs_of_pos h16]
  congr 1
  rw [Int.cast_natAbs, Int.cast_abs]

lemma foldl_corr (t tpb : ℤ) (htpb : 0 < tpb) :
    ∀ (li : List (ℤ × String)) (mi : Option (ℕ × String)),
      List.foldl (scanStep ((t : ℚ) / (tpb : ℚ)))
          (mi.map fun p => (((p.1 : ℚ)) / (16 * (tpb : ℚ)), p.2))
          (li.map fun p => (((p.1 : ℚ)) / 16, p.2))
        = (List.foldl (scanStepInt t tpb) mi li).map
            fun p => (((p.1 : ℚ)) / (16 * (tpb : ℚ)), p.2) := by
  have h16 : (0 : ℚ) < 16 * (tpb : ℚ) := by
    have : (0 : ℚ) < (tpb : ℚ) := by exact_mod_cast htpb
    positivity
  intro li
  induction li with
  | nil => intro mi; rfl
  | cons e rest ih =>
      intro mi
      have hstep : scanStep ((t : ℚ) / (tpb : ℚ))
            (mi.map fun p => (((p.1 : ℚ)) / (16 * (tpb : ℚ)), p.2))
            (((e.1 : ℚ)) / 16, e.2)
          = (scanStepInt t tpb mi e).map
              fun p => (((p.1 : ℚ)) / (16 * (tpb : ℚ)), p.2) := by
        cases mi with
        | none =>
            simp only [scanStep, scanStepInt, Option.map]
            rw [dist_scaled t tpb e.1 htpb]
        | some mc =>
            obtain ⟨m, c⟩ := mc
            simp only [scanStep, scanStepInt, Option.map]
            rw [dist_scaled t tpb e.1 htpb]
            by_cases hlt : ((16 * t - e.1 * tpb).natAbs : ℕ) < m
            · rw [if_pos ((div_lt_div_iff_of_pos_right h16).mpr (by exact_mod_cast hlt)),
                if_pos hlt]
            · rw [if_neg
                (fun hc => hlt (by exact_mod_cast (div_lt_div_iff_of_pos_right h16).mp hc)),
                if_neg hlt]
      simp only [List.map, List.foldl, hstep]
      exact ih (scanStepInt t tpb mi e)

lemma quantCore_eq_of_some {b m : ℚ} {c : String}
    (h : bestMatch b = some (m, c)) : quantCore b = c := by
  unfold quantCore
  rw [h]

lemma quantCore_eq_of_none {b : ℚ} (h : bestMatch b = none) :
    quantCore b = "/?" := by
  unfold quantCore
  rw [h]

lemma durCode_eq_of_some {t tpb : ℤ} {m : ℕ} {c : String}
    (hg : ¬ (t ≤ 0 ∨ tpb ≤ 0)) (h : bestMatchInt t tpb = some (m, c)) :
    durCode t tpb = c := by
  unfold durCode
  rw [if_neg hg, h]

lemma durCode_eq_of_none {t tpb : ℤ}
    (hg : ¬ (t ≤ 0 ∨ tpb ≤ 0)) (h : bestMatchInt t tpb = none) :
    durCode t tpb = "/?" := by
  unfold durCode
  rw [if_neg hg, h]

lemma ticks_to_duration_code_pos {ticks tpb : ℚ}
    (hq : ¬ (ticks ≤ 0 ∨ tpb ≤ 0)) :
    ticks_to_duration_code ticks tpb = quantCore (ticks / tpb) := by
  simp only [ticks_to_duration_code, if_neg hq]

lemma foldl_corr_none (t tpb : ℤ) (htpb : 0 < tpb) (li : List (ℤ × String)) :
    List.foldl (scanStep ((t : ℚ) / (tpb : ℚ))) none
        (li.map fun p => (((p.1 : ℚ)) / 16, p.2))
      = (List.foldl (scanStepInt t tpb) none li).map
          fun p => (((p.1 : ℚ)) / (16 * (tpb : ℚ)), p.2) := by
  simpa using foldl_corr t tpb htpb li none

/-- The integer-exact quantizer agrees with the direct translation of
`_ticks_to_duration_code` on all integer inputs. -/
theorem durCode_eq (t tpb : ℤ) :
    durCode t tpb = ticks_to_duration_code (t : ℚ) (tpb : ℚ) := by
  by_cases h : t ≤ 0 ∨ tpb ≤ 0
  · have hq : (t : ℚ) ≤ 0 ∨ (tpb : ℚ) ≤ 0 := by
      rcases h with h | h
      · exact Or.inl (by exact_mod_cast h)
      · exact Or.inr (by exact_mod_cast h)
    simp only [durCode, ticks_to_duration_code, if_pos h, if_pos hq]
  · push_neg at h
    obtain ⟨ht, htpb⟩ := h
    have hg : ¬ (t ≤ 0 ∨ tpb ≤ 0) := by
      push_neg
      exact ⟨ht, htpb⟩
    have hq : ¬ ((t : ℚ) ≤ 0 ∨ (tpb : ℚ) ≤ 0) := by
      push_neg
      exact ⟨by exact_mod_cast ht, by exact_mod_cast htpb⟩
    have hbm : bestMatch ((t : ℚ) / (tpb : ℚ))
        = (bestMatchInt t tpb).map
            fun p => (((p.1 : ℚ)) / (16 * (tpb : ℚ)), p.2) := by
      unfold bestMatch bestMatchInt
      rw [duration_map_eq_scaled]
      exact foldl_corr_none t tpb htpb _
    cases hres : bestMatchInt t tpb with
    | none =>
        have h1 : bestMatch ((t : ℚ) / (tpb : ℚ)) = none := by
          rw [hbm, hres]
          rfl
        rw [durCode_eq_of_none hg hres, ticks_to_duration_code_pos hq,
          quantCore_eq_of_none h1]
    | some mc =>
        obtain ⟨m, c⟩ := mc
        have h1 : bestMatch ((t : ℚ) / (tpb : ℚ))
            = some (((m : ℚ)) / (16 * (tpb : ℚ)), c) := by
          rw [hbm, hres]
          rfl
        rw [durCode_eq_of_some hg hres, ticks_to_duration_code_pos hq,
          quantCore_eq_of_some h1]

/-! ### Characterisation of the minimum-distance scan -/

lemma scan_from_some (beats : ℚ) :
    ∀ (l : List (ℚ × String)) (m : ℚ) (c : String),
      (l.foldl (scanStep beats) (some (m, c)) = some (m, c) ∧
        ∀ x ∈ l, m ≤ |beats - x.1|) ∨
      (∃ l1 e l2, l = l1 ++ e :: l2 ∧
        l.foldl (scanStep beats) (some (m, c)) = some (|beats - e.1|, e.2) ∧
        |beats - e.1| < m ∧
        (∀ x ∈ l1, |beats - e.1| < |beats - x.1|) ∧
        (∀ x ∈ l2, |beats - e.1| ≤ |beats - x.1|)) := by
  intro l
  induction l with
  | nil =>
      intro m c
      exact Or.inl ⟨rfl, by simp⟩
  | cons f rest ih =>
      intro m c
      by_cases hd : |beats - f.1| < m
      · have hstep : scanStep beats (some (m, c)) f = some (|beats - f.1|, f.2) := by
          simp [scanStep, if_pos hd]
        rw [List.foldl_cons, hstep]
        rcases ih (|beats - f.1|) f.2 with ⟨heq, hall⟩ | ⟨l1, e, l2, hl, heq, hlt, h1, h2⟩
        · exact Or.inr ⟨[], f, rest, by simp, heq, hd, by simp, hall⟩
        · refine Or.inr ⟨f :: l1, e, l2, by rw [hl, List.cons_append], heq,
            lt_trans hlt hd, ?_, h2⟩
          intro x hx
          rcases List.mem_cons.mp hx with rfl | hx
          · exact hlt
          · exact h1 x hx
      · have hstep : scanStep beats (some (m, c)) f = some (m, c) := by
          simp [scanStep, if_neg hd]
        rw [List.foldl_cons, hstep]
        rcases ih m c with ⟨heq, hall⟩ | ⟨l1, e, l2, hl, heq, hlt, h1, h2⟩
        · refine Or.inl ⟨heq, ?_⟩
          intro x hx
          rcases List.mem_cons.mp hx with rfl | hx
          · exact not_lt.mp hd
          · exact hall x hx
        · refine Or.inr ⟨f :: l1, e, l2, by rw [hl, List.cons_append], heq, hlt, ?_, h2⟩
          intro x hx
          rcases List.mem_cons.mp hx with rfl | hx
          · exact lt_of_lt_of_le hlt (not_lt.mp hd)
          · exact h1 x hx

lemma foldl_scan_spec (beats : ℚ) (f : ℚ × String) (tl : List (ℚ × String)) :
    ∃ l1 e l2, f :: tl = l1 ++ e :: l2 ∧
      List.foldl (scanStep beats) none (f :: tl) = some (|beats - e.1|, e.2) ∧
      (∀ x ∈ f :: tl, |beats - e.1| ≤ |beats - x.1|) ∧
      (∀ x ∈ l1, |beats - e.1| < |beats - x.1|) := by
  have hfirst : scanStep beats none f = some (|beats - f.1|, f.2) := rfl
  rw [List.foldl_cons, hfirst]
  rcases scan_from_some beats tl (|beats - f.1|) f.2 with
    ⟨heq, hall⟩ | ⟨l1, e, l2, hl, heq, hlt, h1, h2⟩
  · refine ⟨[], f, tl, by simp, heq, ?_, by simp⟩
    intro x hx
    rcases List.mem_cons.mp hx with rfl | hx
    · exact le_refl _
    · exact hall x hx
  · refine ⟨f :: l1, e, l2, by rw [hl, List.cons_append], heq, ?_, ?_⟩
    · intro x hx
      rcases List.mem_cons.mp hx with rfl | hx
      · exact le_of_lt hlt
      · rw [hl] at hx
        rcases List.mem_append.mp hx with hx | hx
        · exact le_of_lt (h1 x hx)
        · rcases List.mem_cons.mp hx with rfl | hx
          · exact le_refl _
          · exact h2 x hx
    · intro x hx
      rcases List.mem_cons.mp hx with rfl | hx
      · exact hlt
      · exact h1 x hx

lemma bestMatch_spec (beats : ℚ) :
    ∃ l1 e l2, duration_map = l1 ++ e :: l2 ∧
      bestMatch beats = some (|beats - e.1|, e.2) ∧
      (∀ x ∈ duration_map, |beats - e.1| ≤ |beats - x.1|) ∧
      (∀ x ∈ l1, |beats - e.1| < |beats - x.1|) := by
  obtain ⟨f, tl, hcons⟩ : ∃ f tl, duration_map = f :: tl := ⟨_, _, rfl⟩
  rw [hcons]
  unfold bestMatch
  rw [hcons]
  exact foldl_scan_spec beats f tl

/-! ### Quantizer evaluation helpers -/

lemma quant_mul (b tpb : ℚ) (hb : 0 < b) (htpb : 0 < tpb) :
    ticks_to_duration_code (b * tpb) tpb = quantCore b := by
  have hq : ¬ (b * tpb ≤ 0 ∨ tpb ≤ 0) := by
    push_neg
    exact ⟨mul_pos hb htpb, htpb⟩
  rw [ticks_to_duration_code_pos hq, mul_div_cancel_right₀ _ (ne_of_gt htpb)]

lemma quantCore_int16 (bn : ℤ) (hbn : 0 < bn) :
    quantCore ((bn : ℚ) / 16) = durCode bn 16 := by
  have h := durCode_eq bn 16
  have hq : ¬ ((bn : ℚ) ≤ 0 ∨ (((16 : ℤ) : ℚ)) ≤ 0) := by
    push_neg
    constructor
    · exact_mod_cast hbn
    · norm_num
  rw [ticks_to_duration_code_pos hq] at h
  push_cast at h
  exact h.symm

lemma quant_1000_480 : ticks_to_duration_code 1000 480 = "/2" := by
  have h := durCode_eq 1000 480
  norm_num at h
  rw [← h]
  decide

/-! ### Truncating division: `pyInt` vs `Int.tdiv` -/

lemma floor_intCast_div (num den : ℤ) (hden : 0 < den) :
    ⌊(num : ℚ) / (den : ℚ)⌋ = num / den := by
  have h1 : ((den.toNat : ℕ) : ℤ) = den := Int.toNat_of_nonneg (le_of_lt hden)
  have h2 : ((den.toNat : ℕ) : ℚ) = (den : ℚ) := by exact_mod_cast h1
  calc ⌊(num : ℚ) / (den : ℚ)⌋
      = ⌊(num : ℚ) / ((den.toNat : ℕ) : ℚ)⌋ := by rw [h2]
    _ = num / ((den.toNat : ℕ) : ℤ) :=
        Rat.floor_intCast_div_natCast num den.toNat
    _ = num / den := by rw [h1]

lemma pyInt_intCast_div_pos (a b : ℤ) (hb : 0 < b) :
    pyInt ((a : ℚ) / (b : ℚ)) = a.tdiv b := by
  have hbq : (0 : ℚ) < (b : ℚ) := by exact_mod_cast hb
  by_cases ha : 0 ≤ a
  · have haq : (0 : ℚ) ≤ (a : ℚ) := by exact_mod_cast ha
    have hq : ¬ ((a : ℚ) / (b : ℚ) < 0) :=
      not_lt.mpr (div_nonneg haq (le_of_lt hbq))
    unfold pyInt
    rw [if_neg hq, floor_intCast_div a b hb, Int.tdiv_eq_ediv ha (le_of_lt hb)]
  · push_neg at ha
    have haq : (a : ℚ) < 0 := by exact_mod_cast ha
    have hq : (a : ℚ) / (b : ℚ) < 0 := div_neg_of_neg_of_pos haq hbq
    unfold pyInt
    rw [if_pos hq]
    have hneg : -((a : ℚ) / (b : ℚ)) = ((-a : ℤ) : ℚ) / (b : ℚ) := by
      push_cast
      ring
    rw [hneg, floor_intCast_div (-a) b hb,
      show a.tdiv b = -((-a).tdiv b) by rw [Int.neg_tdiv, neg_neg],
      Int.tdiv_eq_ediv (by omega) (le_of_lt hb)]

lemma pyInt_intCast_div (a b : ℤ) (hb : b ≠ 0) :
    pyInt ((a : ℚ) / (b : ℚ)) = a.tdiv b := by
  rcases lt_or_gt_of_ne hb with hneg | hpos
  · have hflip : (a : ℚ) / (b : ℚ) = ((-a : ℤ) : ℚ) / ((-b : ℤ) : ℚ) := by
      push_cast
      rw [neg_div_neg_eq]
    rw [hflip, pyInt_intCast_div_pos (-a) (-b) (by omega), Int.neg_tdiv_neg]
  · exact pyInt_intCast_div_pos a b hpos

/-- The integer-exact measure-length computation agrees with the direct
translation of `calculate_ticks_per_measure`. -/
theorem calc_ticks_per_measure_int_eq (ts : Option (ℤ × ℤ)) (tpb : ℤ) :
    calcTicksPerMeasureInt ts tpb = calculate_ticks_per_measure ts tpb := by
  unfold calcTicksPerMeasureInt calculate_ticks_per_measure
  dsimp only
  by_cases hden : (ts.getD (4, 4)).2 = 0
  · rw [if_pos hden, if_pos hden]
  · rw [if_neg hden, if_neg hden]
    have hdq : ((ts.getD (4, 4)).2 : ℚ) ≠ 0 := Int.cast_ne_zero.mpr hden
    have harg :
        (((if tpb ≤ 0 then 1 else tpb) : ℤ) : ℚ) * ((ts.getD (4, 4)).1 : ℚ)
            * (4 / ((ts.getD (4, 4)).2 : ℚ))
          = (((if tpb ≤ 0 then 1 else tpb) * (ts.getD (4, 4)).1 * 4 : ℤ) : ℚ)
              / (((ts.getD (4, 4)).2 : ℤ) : ℚ) := by
      push_cast
      field_simp
    rw [harg, pyInt_intCast_div _ _ hden]

/-! ### Claim theorems -/

/-- **C10**: for every time-signature argument (well-formed or not, zero or
negative entries included) and every positive `ticks_per_beat`,
`calculate_ticks_per_measure` returns a strictly positive integer (it is a
total function, so it cannot raise); consequently the converter's
skip-track test `ticks_per_measure ≤ 0` (which `convertTrack` evaluates on
the equal `calcTicksPerMeasureInt`) is false. -/
theorem calc_ticks_per_measure_pos (ts : Option (ℤ × ℤ)) (tpb : ℤ)
    (htpb : 0 < tpb) :
    0 < calculate_ticks_per_measure ts tpb ∧
      ¬ (calcTicksPerMeasureInt ts tpb ≤ 0) := by
  have hpos : 0 < calculate_ticks_per_measure ts tpb := by
    unfold calculate_ticks_per_measure
    dsimp only
    split_ifs <;> omega
  refine ⟨hpos, ?_⟩
  rw [calc_ticks_per_measure_int_eq]
  omega

/-- Witness for C10 at `time_signature = (3, 4)`, `ticks_per_beat = 480`. -/
theorem calc_ticks_per_measure_pos_witness :
    (0 : ℤ) < 480 ∧
      (0 < calculate_ticks_per_measure (some (3, 4)) 480 ∧
        ¬ (calcTicksPerMeasureInt (some (3, 4)) 480 ≤ 0)) :=
  ⟨by norm_num, calc_ticks_per_measure_pos (some (3, 4)) 480 (by norm_num)⟩

/-- **C8**: for `ticks ≤ 0` or `ticks_per_beat ≤ 0` the quantizer returns
the unknown code `"/?"` (and, being a total function, never raises). -/
theorem quantize_invalid_returns_unknown (ticks tpb : ℚ)
    (h : ticks ≤ 0 ∨ tpb ≤ 0) :
    ticks_to_duration_code ticks tpb = "/?" := by
  simp only [ticks_to_duration_code, if_pos h]

/-- Witness for C8 at `ticks = 0`, `ticks_per_beat = 480`. -/
theorem quantize_invalid_returns_unknown_witness :
    ((0 : ℚ) ≤ 0 ∨ (480 : ℚ) ≤ 0) ∧
      ticks_to_duration_code 0 480 = "/?" :=
  ⟨Or.inl le_rfl, quantize_invalid_returns_unknown 0 480 (Or.inl le_rfl)⟩

/-- **C2**: for positive inputs the quantizer returns the code of a
`duration_map` entry `e` whose beat value minimises
`|ticks/ticks_per_beat - beat_value|`; every entry listed before `e` is at
strictly greater distance (so at equal minimal distance the earlier entry
wins), with no condition on the 0.25-beat warning threshold (the nearest
code is returned regardless of the distance); and
`quantize(1000, 480) = "/2"`. -/
theorem quantize_nearest_neighbor (t tpb : ℚ) (ht : 0 < t) (htpb : 0 < tpb) :
    (∃ l1 e l2, duration_map = l1 ++ e :: l2 ∧
      ticks_to_duration_code t tpb = e.2 ∧
      (∀ x ∈ duration_map, |t / tpb - e.1| ≤ |t / tpb - x.1|) ∧
      (∀ x ∈ l1, |t / tpb - e.1| < |t / tpb - x.1|)) ∧
    ticks_to_duration_code 1000 480 = "/2" := by
  constructor
  · have hq : ¬ (t ≤ 0 ∨ tpb ≤ 0) := by
      push_neg
      exact ⟨ht, htpb⟩
    obtain ⟨l1, e, l2, hsplit, hbm, hmin, hstrict⟩ := bestMatch_spec (t / tpb)
    exact ⟨l1, e, l2, hsplit,
      by rw [ticks_to_duration_code_pos hq, quantCore_eq_of_some hbm],
      hmin, hstrict⟩
  · exact quant_1000_480

/-- Witness for C2 at `ticks = 1000`, `ticks_per_beat = 480`. -/
theorem quantize_nearest_neighbor_witness :
    ((0 : ℚ) < 1000 ∧ (0 : ℚ) < 480) ∧
      ((∃ l1 e l2, duration_map = l1 ++ e :: l2 ∧
        ticks_to_duration_code 1000 480 = e.2 ∧
        (∀ x ∈ duration_map,
          |(1000 : ℚ) / 480 - e.1| ≤ |(1000 : ℚ) / 480 - x.1|) ∧
        (∀ x ∈ l1, |(1000 : ℚ) / 480 - e.1| < |(1000 : ℚ) / 480 - x.1|)) ∧
      ticks_to_duration_code 1000 480 = "/2") :=
  ⟨⟨by norm_num, by norm_num⟩,
    quantize_nearest_neighbor 1000 480 (by norm_num) (by norm_num)⟩

/-- **C7 counterexample**: at `k = 16` (a power of two) there is no
duration-table entry with beat value 16 at all, so no "exact matching plain
code" can be returned; the quantizer instead answers the nearest code
`"/0.5"` (8 beats). -/
theorem quantize_pow2_counterexample :
    ticks_to_duration_code (16 * 480) 480 = "/0.5" ∧
      ¬ (∃ e ∈ duration_map, e.1 = 16 ∧
          ticks_to_duration_code (16 * 480) 480 = e.2) := by
  have hval : ticks_to_duration_code (16 * 480 : ℚ) 480 = "/0.5" := by
    have h77 : ((16 : ℚ) * 480) = 7680 := by norm_num
    have h := durCode_eq 7680 480
    norm_num at h
    rw [h77, ← h]
    decide
  refine ⟨hval, ?_⟩
  rintro ⟨e, hmem, h16, -⟩
  simp only [duration_map] at hmem
  fin_cases hmem <;> norm_num at h16

/-- **C7 amended**: for `k ∈ {1, 2, 4, 8}` — the integer powers of two
whose beat value appears in the table — and every positive
`ticks_per_beat`, `quantize(k * ticks_per_beat, ticks_per_beat)` is the
exact matching plain (non-dotted) code. -/
theorem quantize_pow2_exact (tpb : ℚ) (htpb : 0 < tpb) :
    ticks_to_duration_code (1 * tpb) tpb = "/4" ∧
    ticks_to_duration_code (2 * tpb) tpb = "/2" ∧
    ticks_to_duration_code (4 * tpb) tpb = "/1" ∧
    ticks_to_duration_code (8 * tpb) tpb = "/0.5" := by
  refine ⟨?_, ?_, ?_, ?_⟩
  · rw [quant_mul 1 tpb (by norm_num) htpb,
      show (1 : ℚ) = ((16 : ℤ) : ℚ) / 16 by norm_num,
      quantCore_int16 16 (by norm_num)]
    decide
  · rw [quant_mul 2 tpb (by norm_num) htpb,
      show (2 : ℚ) = ((32 : ℤ) : ℚ) / 16 by norm_num,
      quantCore_int16 32 (by norm_num)]
    decide
  · rw [quant_mul 4 tpb (by norm_num) htpb,
      show (4 : ℚ) = ((64 : ℤ) : ℚ) / 16 by norm_num,
      quantCore_int16 64 (by norm_num)]
    decide
  · rw [quant_mul 8 tpb (by norm_num) htpb,
      show (8 : ℚ) = ((128 : ℤ) : ℚ) / 16 by norm_num,
      quantCore_int16 128 (by norm_num)]
    decide

/-- Witness for the amended C7 at `ticks_per_beat = 480`. -/
theorem quantize_pow2_exact_witness :
    (0 : ℚ) < 480 ∧
      (ticks_to_duration_code (1 * 480) 480 = "/4" ∧
       ticks_to_duration_code (2 * 480) 480 = "/2" ∧
       ticks_to_duration_code (4 * 480) 480 = "/1" ∧
       ticks_to_duration_code (8 * 480) 480 = "/0.5") :=
  ⟨by norm_num, quantize_pow2_exact 480 (by norm_num)⟩

lemma code_roundtrip (bn : ℤ) (code : String) (tpb : ℚ) (hbn : 0 < bn)
    (htpb : 0 < tpb)
    (hc2t : code_to_ticks code tpb = ((bn : ℚ) / 16) * tpb)
    (heval : durCode bn 16 = code) :
    ticks_to_duration_code (code_to_ticks code tpb) tpb = code := by
  have hbq : (0 : ℚ) < (bn : ℚ) / 16 :=
    div_pos (by exact_mod_cast hbn) (by norm_num)
  rw [hc2t, quant_mul _ tpb hbq htpb, quantCore_int16 bn hbn, heval]

/-- **C6**: for positive inputs whose quantization is a table code (which
the other theorems show is always the case), re-quantizing the nominal
tick value `code_to_ticks(code) = beat_value * ticks_per_beat` returns the
same code. -/
theorem quantize_idempotent (t tpb : ℚ) (ht : 0 < t) (htpb : 0 < tpb)
    (hmem : ticks_to_duration_code t tpb ∈ duration_map.map Prod.snd) :
    ticks_to_duration_code (code_to_ticks (ticks_to_duration_code t tpb) tpb) tpb
      = ticks_to_duration_code t tpb := by
  obtain ⟨e, hel, hcode⟩ := List.mem_map.mp hmem
  rw [← hcode]
  simp only [duration_map] at hel
  fin_cases hel
  · exact code_roundtrip 128 "/0.5" tpb (by norm_num) htpb
      (by rw [show code_to_ticks "/0.5" tpb = (8) * tpb from rfl]
          norm_num) (by decide)
  · exact code_roundtrip 64 "/1" tpb (by norm_num) htpb
      (by rw [show code_to_ticks "/1" tpb = (4) * tpb from rfl]
          norm_num) (by decide)
  · exact code_roundtrip 48 "/2." tpb (by norm_num) htpb
      (by rw [show code_to_ticks "/2." tpb = (3) * tpb from rfl]
          norm_num) (by decide)
  · exact code_roundtrip 32 "/2" tpb (by norm_num) htpb
      (by rw [show code_to_ticks "/2" tpb = (2) * tpb from rfl]
          norm_num) (by decide)
  · exact code_roundtrip 24 "/4." tpb (by norm_num) htpb
      (by rw [show code_to_ticks "/4." tpb = (3 / 2) * tpb from rfl]
          norm_num) (by decide)
  · exact code_roundtrip 16 "/4" tpb (by norm_num) htpb
      (by rw [show code_to_ticks "/4" tpb = (1) * tpb from rfl]
          norm_num) (by decide)
  · exact code_roundtrip 12 "/8." tpb (by norm_num) htpb
      (by rw [show code_to_ticks "/8." tpb = (3 / 4) * tpb from rfl]
          norm_num) (by decide)
  · exact code_roundtrip 8 "/8" tpb (by norm_num) htpb
      (by rw [show code_to_ticks "/8" tpb = (1 / 2) * tpb from rfl]
          norm_num) (by decide)
  · exact code_roundtrip 6 "/16." tpb (by norm_num) htpb
      (by rw [show code_to_ticks "/16." tpb = (3 / 8) * tpb from rfl]
          norm_num) (by decide)
  · exact code_roundtrip 4 "/16" tpb (by norm_num) htpb
      (by rw [show code_to_ticks "/16" tpb = (1 / 4) * tpb from rfl]
          norm_num) (by decide)
  · exact code_roundtrip 3 "/32." tpb (by norm_num) htpb
      (by rw [show code_to_ticks "/32." tpb = (3 / 16) * tpb from rfl]
          norm_num) (by decide)
  · exact code_roundtrip 2 "/32" tpb (by norm_num) htpb
      (by rw [show code_to_ticks "/32" tpb = (1 / 8) * tpb from rfl]
          norm_num) (by decide)
  · exact code_roundtrip 1 "/64" tpb (by norm_num) htpb
      (by rw [show code_to_ticks "/64" tpb = (1 / 16) * tpb from rfl]
          norm_num) (by decide)

/-- Witness for C6 at `ticks = 1000`, `ticks_per_beat = 480`. -/
theorem quantize_idempotent_witness :
    ((0 : ℚ) < 1000 ∧ (0 : ℚ) < 480 ∧
      ticks_to_duration_code 1000 480 ∈ duration_map.map Prod.snd) ∧
      ticks_to_duration_code
          (code_to_ticks (ticks_to_duration_code 1000 480) 480) 480
        = ticks_to_duration_code 1000 480 := by
  have hm : ticks_to_duration_code 1000 480 ∈ duration_map.map Prod.snd := by
    rw [quant_1000_480]
    decide
  exact ⟨⟨by norm_num, by norm_num, hm⟩,
    quantize_idempotent 1000 480 (by norm_num) (by norm_num) hm⟩

/-- **C1 counterexample**: on the C1 scenario track the rendered block is
`T0 Piano:\n| 1 dyn(mf) C4/4 E4/4 dyn(mp) G4/2 |` — the dynamic markers
`dyn(mf)` (velocity 80) and `dyn(mp)` (velocity 70) are part of the body —
so the body is not `| 1 C4/4 E4/4 G4/2 |`. -/
theorem c1_body_counterexample :
    convertTrack 0 "Piano" (some (4, 4)) 480 c1track
      = some "T0 Piano:\n| 1 dyn(mf) C4/4 E4/4 dyn(mp) G4/2 |" ∧
    convertTrack 0 "Piano" (some (4, 4)) 480 c1track
      ≠ some "T0 Piano:\n| 1 C4/4 E4/4 G4/2 |" := by
  constructor
  · decide
  · decide

/-- **C1 amended**: the rendered track body of the C1 scenario is exactly
`| 1 dyn(mf) C4/4 E4/4 dyn(mp) G4/2 |`. -/
theorem c1_body :
    convertTrack 0 "Piano" (some (4, 4)) 480 c1track
      = some "T0 Piano:\n| 1 dyn(mf) C4/4 E4/4 dyn(mp) G4/2 |" := by
  decide

/-- **C3 counterexample**: a tempo event at tick 960, 480 ticks past the
last note end, triggers the rest-insertion check and inserts an extra
`R/4`, so removing tempo events changes the output. -/
theorem tempo_events_affect_output :
    convertTrack 0 "X" (some (4, 4)) 480 (c3track.filter (fun e => !e.isTempo))
      = some "T0 X:\n| 1 dyn(mf) C4/4 R/2. | E4/4 |" ∧
    convertTrack 0 "X" (some (4, 4)) 480 c3track
      = some "T0 X:\n| 1 dyn(mf) C4/4 R/4 R/2. | E4/4 |" ∧
    convertTrack 0 "X" (some (4, 4)) 480 (c3track.filter (fun e => !e.isTempo))
      ≠ convertTrack 0 "X" (some (4, 4)) 480 c3track := by
  refine ⟨by decide, by decide, by decide⟩

lemma pass1_filter_tempo (tpb : ℕ) :
    ∀ (l : List Event) (st : P1), tempoSafeB tpb st l = true →
      (l.filter (fun e => !e.isTempo)).foldl (pass1Step tpb) st
        = l.foldl (pass1Step tpb) st := by
  intro l
  induction l with
  | nil =>
      intro st _
      rfl
  | cons e rest ih =>
      intro st hsafe
      simp only [tempoSafeB, Bool.and_eq_true] at hsafe
      obtain ⟨hcond, hrest⟩ := hsafe
      cases e with
      | tempo t bpm =>
          have hgap : t - st.lastEnd < MIN_REST_DURATION_TICKS :=
            of_decide_eq_true hcond
          have hid : pass1Step tpb st (Event.tempo t bpm) = st := by
            unfold pass1Step
            dsimp only [Event.tick]
            rw [if_neg (by omega)]
          have hf : (Event.tempo t bpm :: rest).filter (fun e => !e.isTempo)
              = rest.filter (fun e => !e.isTempo) := by
            simp [Event.isTempo]
          rw [hid] at hrest
          rw [hf, List.foldl_cons, hid]
          exact ih st hrest
      | note k p v d =>
          have hf : (Event.note k p v d :: rest).filter (fun e => !e.isTempo)
              = Event.note k p v d :: rest.filter (fun e => !e.isTempo) := by
            simp [Event.isTempo]
          rw [hf, List.foldl_cons, List.foldl_cons]
          exact ih _ hrest
      | timesig k n d =>
          have hf : (Event.timesig k n d :: rest).filter (fun e => !e.isTempo)
              = Event.timesig k n d :: rest.filter (fun e => !e.isTempo) := by
            simp [Event.isTempo]
          rw [hf, List.foldl_cons, List.foldl_cons]
          exact ih _ hrest

/-- **C3 amended**: a tempo event emits no object and leaves the pass-1
state unchanged, but the rest-insertion check still runs at its tick.
When no tempo event lies `MIN_REST_DURATION_TICKS` (5) or more ticks past
the running `last_event_end_tick` (`tempoSafeB`), and removing the tempo
events does not turn a nonempty track into an empty one (which would be
skipped instead of rendered), the output is unchanged. -/
theorem tempo_events_no_influence_when_safe (idx : ℕ) (name : String)
    (ts : Option (ℤ × ℤ)) (tpb : ℕ) (events : List Event)
    (hsafe : tempoSafeB tpb ⟨[], 0, none⟩ events = true)
    (hne : events.filter (fun e => !e.isTempo) ≠ [] ∨ events = []) :
    convertTrack idx name ts tpb (events.filter (fun e => !e.isTempo))
      = convertTrack idx name ts tpb events := by
  rcases hne with hfne | rfl
  · have hemp : events ≠ [] := by
      intro h
      subst h
      exact hfne rfl
    unfold convertTrack
    rw [if_neg hfne, if_neg hemp]
    have hp : pass1 tpb (events.filter (fun e => !e.isTempo))
        = pass1 tpb events := by
      unfold pass1
      exact pass1_filter_tempo tpb events ⟨[], 0, none⟩ hsafe
    rw [hp]
  · rfl

/-- Witness for the amended C3 on `c3safeTrack` (tempo event 1 tick past
the last note end). -/
theorem tempo_events_no_influence_when_safe_witness :
    (tempoSafeB 480 ⟨[], 0, none⟩ c3safeTrack = true) ∧
    (c3safeTrack.filter (fun e => !e.isTempo) ≠ [] ∨ c3safeTrack = []) ∧
    convertTrack 0 "X" (some (4, 4)) 480
        (c3safeTrack.filter (fun e => !e.isTempo))
      = convertTrack 0 "X" (some (4, 4)) 480 c3safeTrack :=
  ⟨by decide, Or.inl (by decide),
    tempo_events_no_influence_when_safe 0 "X" (some (4, 4)) 480 c3safeTrack
      (by decide) (Or.inl (by decide))⟩

/-- **C9 counterexample**: a track whose raw event list is empty is skipped
by the `continue` at llm_converter.py:135-137 — no block at all is
emitted, in particular not one with body `"| 1 |"`. -/
theorem empty_track_skipped :
    convertTrack 0 "X" (some (4, 4)) 480 ([] : List Event) = none ∧
      convertTrack 0 "X" (some (4, 4)) 480 ([] : List Event)
        ≠ some (("T" ++ toString (0 : ℕ) ++ " " ++ "X" ++ ":") ++ "\n| 1 |") := by
  refine ⟨rfl, by decide⟩

/-- **C9 amended**: a track with a *nonempty* event list whose layout pass
produces zero musical objects still emits a block with the minimal body
`"| 1 |"`; a track with an empty event list is skipped instead. -/
theorem zero_objects_minimal_body (idx : ℕ) (name : String)
    (ts : Option (ℤ × ℤ)) (tpb : ℕ) (events : List Event)
    (hne : events ≠ [])
    (htpm : ¬ calcTicksPerMeasureInt ts (tpb : ℤ) ≤ 0)
    (hobjs : sortObjs (pass1 tpb events).objs = []) :
    convertTrack idx name ts tpb events
      = some (("T" ++ toString idx ++ " " ++ name ++ ":") ++ "\n| 1 |") := by
  unfold convertTrack
  rw [if_neg hne]
  dsimp only
  rw [if_neg htpm, hobjs, if_pos rfl]

/-- Witness for the amended C9 on a track holding a single tempo event. -/
theorem zero_objects_minimal_body_witness :
    (([Event.tempo 0 120] : List Event) ≠ []) ∧
    (¬ calcTicksPerMeasureInt (some (4, 4)) ((480 : ℕ) : ℤ) ≤ 0) ∧
    (sortObjs (pass1 480 [Event.tempo 0 120]).objs = []) ∧
    convertTrack 0 "X" (some (4, 4)) 480 [Event.tempo 0 120]
      = some (("T" ++ toString (0 : ℕ) ++ " " ++ "X" ++ ":") ++ "\n| 1 |") :=
  ⟨by decide, by decide, by decide,
    zero_objects_minimal_body 0 "X" (some (4, 4)) 480 [Event.tempo 0 120]
      (by decide) (by decide) (by decide)⟩

/-- **C4 counterexample**: on `c4track` the time-signature marker at tick
10000 pushes `current_measure` to 6 while `last_event_end_tick = 480`
yields `final_measure = 1 < 6`, so the trailing-bar section is skipped and
the track text ends with `[3/4]`, not a bar line. -/
theorem trailing_bar_counterexample :
    convertTrack 0 "X" (some (4, 4)) 480 c4track
      = some "T0 X:\n| 1 dyn(mf) C4/4 R/0.5 | 5 [3/4]" ∧
    lastStartsBar (trackFinalParts 480 1920
        (sortObjs (pass1 480 c4track).objs) (pass1 480 c4track).lastEnd)
      = false := by
  refine ⟨by decide, by decide⟩

/-- The objects of every run produced by `groupRuns` are the original
objects, in order. -/
lemma groupRuns_join : ∀ objs : List MObj, (groupRuns objs).flatten = objs := by
  intro objs
  induction objs with
  | nil => rfl
  | cons a rest ih =>
      cases hgr : groupRuns rest with
      | nil =>
          rw [hgr] at ih
          simp only [List.flatten] at ih
          simp only [groupRuns, hgr, List.flatten]
          simp [← ih]
      | cons g0 gs =>
          rw [hgr] at ih
          cases g0 with
          | nil =>
              simp only [groupRuns, hgr, List.flatten]
              simpa using ih
          | cons h hs =>
              by_cases hmerge : (a.isNote && h.isNote && (h.tick == a.tick)) = true
              · simp only [groupRuns, hgr, if_pos hmerge, List.flatten]
                simpa using ih
              · simp only [groupRuns, hgr, if_neg hmerge, List.flatten]
                simpa using ih

lemma groupRuns_mem {objs g : List MObj} (hg : g ∈ groupRuns objs) :
    ∀ o ∈ g, o ∈ objs := by
  intro o ho
  have : o ∈ (groupRuns objs).flatten := List.mem_flatten.mpr ⟨g, hg, ho⟩
  rwa [groupRuns_join] at this

lemma pass2Group_cm_le (tpb tpm B : ℕ) (st : P2) (g : List MObj)
    (hcm : st.cm ≤ B) (hg : ∀ o ∈ g, o.tick / tpm + 1 ≤ B) :
    (pass2Group tpb tpm st g).cm ≤ B := by
  cases g with
  | nil => exact hcm
  | cons o r =>
      have ho : o.tick / tpm + 1 ≤ B := hg o (List.mem_cons_self o r)
      cases o with
      | note a b c d =>
          simp only [pass2Group, MObj.tick] at ho ⊢
          split_ifs <;> first | exact ho | exact hcm
      | rest a code d =>
          simp only [pass2Group, MObj.tick] at ho ⊢
          split_ifs <;> first | exact ho | exact hcm
      | dyn a code =>
          simp only [pass2Group, MObj.tick] at ho ⊢
          split_ifs <;> first | exact ho | exact hcm
      | timesig a code =>
          simp only [pass2Group, MObj.tick] at ho ⊢
          split_ifs <;> first | exact ho | exact hcm

lemma pass2_cm_le (tpb tpm B : ℕ) (objs : List MObj)
    (hB : 1 ≤ B) (hobjs : ∀ o ∈ objs, o.tick / tpm + 1 ≤ B) :
    (pass2 tpb tpm objs).cm ≤ B := by
  have hfold : ∀ (gs : List (List MObj)) (st : P2),
      (∀ g ∈ gs, ∀ o ∈ g, o.tick / tpm + 1 ≤ B) → st.cm ≤ B →
      (gs.foldl (pass2Group tpb tpm) st).cm ≤ B := by
    intro gs
    induction gs with
    | nil => intro st _ hst; exact hst
    | cons g rest ih =>
        intro st hall hst
        rw [List.foldl_cons]
        exact ih _ (fun g' hg' => hall g' (List.mem_cons_of_mem g hg'))
          (pass2Group_cm_le tpb tpm B st g hst
            (hall g (List.mem_cons_self g rest)))
  exact hfold (groupRuns objs) ⟨["| 1"], 1⟩
    (fun g hg o ho => hobjs o (groupRuns_mem hg o ho)) hB

/-- **C4 amended**: when every musical object lies in a measure no later
than the measure containing `last_event_end_tick` (always the case unless a
time-signature marker sits past the last note end), the final element of
the track's part list is a bar-line token.  (The subsequent string cleanup
splits a numbered bar `"| 5"` into the words `"|"` and `"5"`, so the
guarantee is stated at the token-part level, where a numbered bar is one
token.) -/
theorem track_ends_with_bar (tpb tpm : ℕ) (objs : List MObj) (lastEnd : ℕ)
    (h : ∀ o ∈ objs, o.tick / tpm + 1 ≤ lastEnd / tpm + 1) :
    lastStartsBar (trackFinalParts tpb tpm objs lastEnd) = true := by
  have hcm : (pass2 tpb tpm objs).cm ≤ lastEnd / tpm + 1 :=
    pass2_cm_le tpb tpm _ objs (Nat.le_add_left 1 _) h
  unfold trackFinalParts
  dsimp only
  rw [if_pos hcm]
  by_cases hb : lastStartsBar (insertBars (pass2 tpb tpm objs).parts
      (pass2 tpb tpm objs).cm (lastEnd / tpm + 1)) = true
  · rw [if_pos hb]
    exact hb
  · rw [if_neg hb]
    simp [lastStartsBar, List.getLast?_concat]

/-- Witness for the amended C4 on a one-note track. -/
theorem track_ends_with_bar_witness :
    (∀ o ∈ [MObj.note 0 60 "C4" 480], o.tick / 1920 + 1 ≤ 480 / 1920 + 1) ∧
    lastStartsBar (trackFinalParts 480 1920 [MObj.note 0 60 "C4" 480] 480)
      = true :=
  ⟨by decide,
    track_ends_with_bar 480 1920 [MObj.note 0 60 "C4" 480] 480 (by decide)⟩

/-- **C5 counterexample**: two NoteEvents at the same tick 0 (MIDI 60
velocity 80, MIDI 67 velocity 20) are separated by the `dyn(pp)` marker in
the object list, so the consecutive-notes chord lookahead renders them as
two separate tokens `C4/4` and `G4/4` — not as one `C4+G4` chord object. -/
theorem chord_grouping_counterexample :
    trackFinalParts 480 1920 (sortObjs (pass1 480 c5track).objs)
        (pass1 480 c5track).lastEnd
      = ["| 1", "dyn(mf)", "C4/4", "dyn(pp)", "G4/4", "|"] ∧
    ¬ ("C4+G4/4" ∈ trackFinalParts 480 1920 (sortObjs (pass1 480 c5track).objs)
        (pass1 480 c5track).lastEnd) ∧
    convertTrack 0 "X" (some (4, 4)) 480 c5track
      = some "T0 X:\n| 1 dyn(mf) C4/4 dyn(pp) G4/4 |" := by
  refine ⟨by decide, by decide, by decide⟩

lemma foldl_max_init_le :
    ∀ (l : List MObj) (a : ℕ),
      a ≤ l.foldl (fun acc n => max acc n.durTicks) a := by
  intro l
  induction l with
  | nil => intro a; exact le_refl a
  | cons h t ih =>
      intro a
      exact le_trans (le_max_left a h.durTicks) (ih (max a h.durTicks))

lemma le_chordMaxDur (g : List MObj) (o : MObj) (ho : o ∈ g) :
    o.durTicks ≤ chordMaxDur g := by
  unfold chordMaxDur
  suffices h : ∀ a : ℕ, o.durTicks ≤ g.foldl (fun acc n => max acc n.durTicks) a by
    exact h 0
  induction g with
  | nil => exact absurd ho (List.not_mem_nil o)
  | cons f t ih =>
      intro a
      rcases List.mem_cons.mp ho with rfl | hmem
      · rw [List.foldl_cons]
        exact le_trans (le_max_right a o.durTicks)
          (foldl_max_init_le t (max a o.durTicks))
      · rw [List.foldl_cons]
        exact ih hmem (max a f.durTicks)

lemma sortChord_sorted (g : List MObj) :
    ((sortChord g).map MObj.pitchNum).Sorted (· ≤ ·) := by
  haveI : IsTotal MObj (fun a b => a.pitchNum ≤ b.pitchNum) :=
    ⟨fun a b => Nat.le_total _ _⟩
  haveI : IsTrans MObj (fun a b => a.pitchNum ≤ b.pitchNum) :=
    ⟨fun a b c hab hbc => Nat.le_trans hab hbc⟩
  have h := List.sorted_insertionSort (fun a b : MObj => a.pitchNum ≤ b.pitchNum) g
  exact List.pairwise_map.mpr h

/-- **C5 amended**: only *consecutive* same-tick NoteEvents (not separated
by a dynamic or time-signature marker at the same tick) are grouped into
one NoteOrChord token; inside a group the pitches are sorted by ascending
MIDI number (`sortChord`, a stable sort) and the duration is the maximum
`duration_ticks` of the members (`chordMaxDur`).  In particular the two
simultaneous, equal-velocity notes 67 and 60 of `c5chordTrack` render as
the single token `C4+G4/4`, never `G4+C4`. -/
theorem chord_grouping_consecutive :
    (∀ g : List MObj, ((sortChord g).map MObj.pitchNum).Sorted (· ≤ ·)) ∧
    (∀ g : List MObj, ∀ o ∈ g, o.durTicks ≤ chordMaxDur g) ∧
    trackFinalParts 480 1920 (sortObjs (pass1 480 c5chordTrack).objs)
        (pass1 480 c5chordTrack).lastEnd
      = ["| 1", "dyn(mf)", "C4+G4/4", "|"] ∧
    convertTrack 0 "X" (some (4, 4)) 480 c5chordTrack
      = some "T0 X:\n| 1 dyn(mf) C4+G4/4 |" :=
  ⟨sortChord_sorted, le_chordMaxDur, by decide, by decide⟩

/-- Witness for the amended C5 on the two-note chord group. -/
theorem chord_grouping_consecutive_witness :
    ((sortChord [MObj.note 0 67 "G4" 480, MObj.note 0 60 "C4" 480]).map
        MObj.pitchNum).Sorted (· ≤ ·) ∧
    (MObj.note 0 67 "G4" 480).durTicks
      ≤ chordMaxDur [MObj.note 0 67 "G4" 480, MObj.note 0 60 "C4" 480] :=
  ⟨chord_grouping_consecutive.1 _,
    chord_grouping_consecutive.2.1 _ _ (by decide)⟩

end MidiLLM
